import Mathlib

/-!
Verification of the difflicious unified-diff parser
(`src/difflicious/diff_parser.py`) against its specification.

The pure core of the parser is embedded shallowly:
* `parseHunkLines` embeds the classifier loop of `_parse_hunk` together with
  `_parse_line` (line kinds, the two line-number cursors, newline stripping);
* `alignLines` / `changeRows` embed the while-loop of
  `create_side_by_side_lines` that pairs deletion runs with addition runs;
* `create_side_by_side_lines` embeds the per-hunk loop of the same function;
* `group_lines_into_hunks` embeds `_group_lines_into_hunks`;
* `parse_file` embeds `_parse_file`.

The stage that decodes raw diff text into hunk records is performed by the
external `unidiff` library, whose sources are not part of this repository;
those definitions are modelled from the specification and are marked as such
in their doc comments.
-/

/-- Line kinds produced by `_parse_line` (the strings "context", "deletion",
"addition" in the source). -/
inductive LineType where
  | context
  | deletion
  | addition
deriving DecidableEq

/-- One classified hunk line, embedding the dict returned by `_parse_line`:
keys `type`, `old_line_num`, `new_line_num`, `content`. -/
structure LineData where
  type : LineType
  old_line_num : Option Nat
  new_line_num : Option Nat
  content : String
deriving DecidableEq

/-- The `type` tag of a `left`/`right` cell of a change row. -/
inductive CellKind where
  | deletion
  | addition
  | empty
deriving DecidableEq

/-- One side of a change row: dict `{line_num, content, type}` in the source. -/
structure ChangeCell where
  line_num : Option Nat
  content : String
  kind : CellKind
deriving DecidableEq

/-- One side of a context row: dict `{line_num, content}` in the source. -/
structure PlainCell where
  line_num : Option Nat
  content : String
deriving DecidableEq

/-- A side-by-side row as produced by `create_side_by_side_lines`: the three
dict shapes tagged `"context"`, `"change"` and `"hunk_header"`. -/
inductive Row where
  | context (left right : PlainCell)
  | change (left right : ChangeCell)
  | hunkHeader (content : String) (old_start new_start : Nat)
deriving DecidableEq

/-- A decoded hunk as handed to `_parse_hunk` by the `unidiff` library:
`source_start`, `source_length`, `target_start`, `target_length`,
`section_header`, and the body lines as (marker, value) pairs, where the
value still carries its trailing newline. -/
structure RawHunk where
  old_start : Nat
  old_count : Nat
  new_start : Nat
  new_count : Nat
  section_header : String
  lines : List (Char × String)
deriving DecidableEq

/-- The hunk dict built by `_parse_hunk`. -/
structure HunkData where
  old_start : Nat
  old_count : Nat
  new_start : Nat
  new_count : Nat
  section_header : String
  lines : List LineData
deriving DecidableEq

/-- A rendered hunk as built by `_group_lines_into_hunks`: same metadata keys,
but its `lines` are side-by-side rows. -/
structure RenderedHunk where
  old_start : Nat
  old_count : Nat
  new_start : Nat
  new_count : Nat
  section_header : String
  lines : List Row
deriving DecidableEq

/-- Character-list prefix test; the embedding of `str.startswith` (kept on
character lists so that concrete inputs evaluate by kernel reduction). -/
def charsPrefix : List Char → List Char → Bool
  | [], _ => true
  | _ :: _, [] => false
  | a :: as, b :: bs => decide (a = b) && charsPrefix as bs

/-- Prefix test on strings, embedding `str.startswith(pre)`. -/
def strStarts (s pre : String) : Bool := charsPrefix pre.data s.data

/-- Drop the first `n` characters of a string, embedding the Python slice
`s[n:]`. -/
def strDrop (s : String) (n : Nat) : String := String.mk (s.data.drop n)

/-- Whitespace characters of Python `str.strip()` relevant to diff text. -/
def isWsChar (c : Char) : Bool :=
  c = ' ' || c = '\t' || c = '\n' || c = '\r'

/-- Embeds Python `s.strip()`: remove leading and trailing whitespace. -/
def stripWs (s : String) : String :=
  String.mk (((s.data.dropWhile isWsChar).reverse.dropWhile isWsChar).reverse)

/-- True on newline characters; the character set of `rstrip('\n\r')`. -/
def isNlChar (c : Char) : Bool := c = '\n' || c = '\r'

/-- Embeds Python `s.rstrip('\n\r')`: remove all trailing characters that are
newlines or carriage returns. -/
def rstripNl (s : String) : String :=
  String.mk ((s.data.reverse.dropWhile isNlChar).reverse)

/-- Embeds the loop of `_parse_hunk` (lines 122-137) combined with
`_parse_line`: walk the (marker, value) pairs with the two cursors.  The final
branch mirrors the `else` fallback of `_parse_line` (unknown markers are
tagged "context") together with `_parse_hunk` advancing neither cursor. -/
def parseHunkLines (oldNum newNum : Nat) : List (Char × String) → List LineData
  | [] => []
  | (c, t) :: rest =>
    if c = ' ' then
      ⟨.context, some oldNum, some newNum, rstripNl t⟩ ::
        parseHunkLines (oldNum + 1) (newNum + 1) rest
    else if c = '-' then
      ⟨.deletion, some oldNum, none, rstripNl t⟩ ::
        parseHunkLines (oldNum + 1) newNum rest
    else if c = '+' then
      ⟨.addition, none, some newNum, rstripNl t⟩ ::
        parseHunkLines oldNum (newNum + 1) rest
    else
      ⟨.context, some oldNum, some newNum, rstripNl t⟩ ::
        parseHunkLines oldNum newNum rest

/-- Embeds `_parse_hunk`: copy the hunk header metadata and classify the body
lines starting the cursors at `source_start` / `target_start`. -/
def parse_hunk (h : RawHunk) : HunkData :=
  { old_start := h.old_start
    old_count := h.old_count
    new_start := h.new_start
    new_count := h.new_count
    section_header := h.section_header
    lines := parseHunkLines h.old_start h.new_start h.lines }

/-- Boolean test used by the aligner run-collection loops: is this a
deletion line. -/
def isDelLine (l : LineData) : Bool := decide (l.type = LineType.deletion)

/-- Boolean test used by the aligner run-collection loops: is this an
addition line. -/
def isAddLine (l : LineData) : Bool := decide (l.type = LineType.addition)

/-- The empty padding cell `{line_num: None, content: "", type: "empty"}`. -/
def emptyCell : ChangeCell := ⟨none, "", .empty⟩

/-- The left cell built from a deletion line. -/
def delCell (l : LineData) : ChangeCell := ⟨l.old_line_num, l.content, .deletion⟩

/-- The right cell built from an addition line. -/
def addCell (l : LineData) : ChangeCell := ⟨l.new_line_num, l.content, .addition⟩

/-- Embeds the pairing loop `for j in range(max(len(deletions),
len(additions)))` of `create_side_by_side_lines` (lines 239-256): row `j`
pairs the `j`-th deletion (or the empty cell) with the `j`-th addition (or
the empty cell). -/
def changeRows : List LineData → List LineData → List Row
  | [], adds => adds.map fun a => Row.change emptyCell (addCell a)
  | d :: ds, [] => Row.change (delCell d) emptyCell :: changeRows ds []
  | d :: ds, a :: adds => Row.change (delCell d) (addCell a) :: changeRows ds adds

/-- Embeds the `while i < len(hunk["lines"])` loop of
`create_side_by_side_lines` (lines 204-275): context lines map to one context
row; a deletion starts run collection (maximal deletion run, then maximal
addition run) and emits the paired change rows; a standalone addition emits a
change row with an empty left cell. -/
def alignLines : List LineData → List Row
  | [] => []
  | l :: rest =>
    match l.type with
    | .context =>
      Row.context ⟨l.old_line_num, l.content⟩ ⟨l.new_line_num, l.content⟩ ::
        alignLines rest
    | .deletion =>
      changeRows (l :: rest.takeWhile isDelLine)
          ((rest.dropWhile isDelLine).takeWhile isAddLine) ++
        alignLines ((rest.dropWhile isDelLine).dropWhile isAddLine)
    | .addition =>
      Row.change emptyCell (addCell l) :: alignLines rest
  termination_by ls => ls.length
  decreasing_by
  all_goals simp only [List.length_cons]
  all_goals first
  | omega
  | (have h1 : List.Sublist ((rest.dropWhile isDelLine).dropWhile isAddLine)
        (rest.dropWhile isDelLine) := List.dropWhile_sublist _
     have h2 : List.Sublist (rest.dropWhile isDelLine) rest :=
       List.dropWhile_sublist _
     have h3 := h1.length_le
     have h4 := h2.length_le
     omega)

/-- The rows one hunk contributes to `create_side_by_side_lines`: a
hunk-header row only when `section_header` is truthy (non-empty, lines
194-201), then the aligned content rows. -/
def rowsOfHunk (h : HunkData) : List Row :=
  (if h.section_header ≠ "" then
    [Row.hunkHeader h.section_header h.old_start h.new_start]
  else []) ++
    alignLines h.lines

/-- Embeds the outer `for hunk in hunks` loop of `create_side_by_side_lines`
(lines 191-277), accumulating every hunk's rows into one flat list. -/
def create_side_by_side_lines (hunks : List HunkData) : List Row :=
  hunks.foldl (fun acc h => acc ++ rowsOfHunk h) []

/-- The loop state of `_group_lines_into_hunks`: the finished hunks, the
optional hunk under construction, and the index into `original_hunks`. -/
structure GroupState where
  rendered : List RenderedHunk
  current : Option RenderedHunk
  idx : Nat
deriving DecidableEq

/-- Embeds the Python idiom `(original_hunks[k] if k < len(original_hunks)
else \x7b\x7d).get(field, default)` used by `_group_lines_into_hunks`. -/
def hunkFieldAt (origHunks : List HunkData) (k : Nat)
    (field : HunkData → Nat) (default : Nat) : Nat :=
  match origHunks[k]? with
  | some oh => field oh
  | none => default

/-- Embeds one iteration of the `for line_pair in side_by_side_lines` loop of
`_group_lines_into_hunks` (lines 369-402): a hunk-header row flushes the
current hunk and opens a new one whose counts come from
`original_hunks[hunk_index]` (defaulting to 0 past the end); any other row is
appended to the current hunk, creating a default hunk from
`original_hunks[0]` metadata if none is open yet. -/
def groupStep (origHunks : List HunkData) (st : GroupState) (row : Row) :
    GroupState :=
  match row with
  | .hunkHeader content os ns =>
    { rendered := st.rendered ++ st.current.toList
      current := some
        ⟨os, hunkFieldAt origHunks st.idx HunkData.old_count 0, ns,
          hunkFieldAt origHunks st.idx HunkData.new_count 0, content, []⟩
      idx := st.idx + 1 }
  | r =>
    match st.current with
    | some ch =>
      { st with current := some { ch with lines := ch.lines ++ [r] } }
    | none =>
      { st with
        current := some ⟨hunkFieldAt origHunks 0 HunkData.old_start 1,
          hunkFieldAt origHunks 0 HunkData.old_count 0,
          hunkFieldAt origHunks 0 HunkData.new_start 1,
          hunkFieldAt origHunks 0 HunkData.new_count 0, "", [r]⟩ }

/-- Embeds `_group_lines_into_hunks` (lines 352-408): empty row list short
circuits to `[]`; otherwise fold the rows through `groupStep` and append the
still-open hunk at the end. -/
def group_lines_into_hunks (rows : List Row) (origHunks : List HunkData) :
    List RenderedHunk :=
  if rows = [] then []
  else
    let st := rows.foldl (groupStep origHunks) ⟨[], none, 0⟩
    st.rendered ++ st.current.toList

/-- A decoded file section as handed to `_parse_file` by the `unidiff`
library: the declared old and new paths (`source_file` / `target_file`, still
carrying their `a/`-`b/` prefixes when present) and the decoded hunks. -/
structure DecodedFile where
  source_file : String
  target_file : String
  hunks : List RawHunk
deriving DecidableEq

/-- The per-file dict built by `_parse_file`. -/
structure FileData where
  path : String
  old_path : Option String
  status : String
  additions : Nat
  deletions : Nat
  changes : Nat
  hunks : List HunkData
deriving DecidableEq

/-- The diff tool's "no file" sentinel path, as used by git and stored
verbatim by the decode stage. -/
def DEV_NULL : String := "/dev/null"

/-- Modelled from the spec: `PatchedFile.is_added_file` of the external
`unidiff` library is not part of this repository.  Per spec section 4.1 the
file is added exactly when the old path is the diff tool's "no file"
sentinel. -/
def is_added_file (f : DecodedFile) : Bool := f.source_file = DEV_NULL

/-- Modelled from the spec: `PatchedFile.is_removed_file` of the external
`unidiff` library is not part of this repository.  Per spec section 4.1 the
file is deleted exactly when the new path is the "no file" sentinel. -/
def is_removed_file (f : DecodedFile) : Bool := f.target_file = DEV_NULL

/-- Embeds the `a/`-`b/` prefix stripping of `_parse_file` (lines 80-83):
`path[2:]` when the path starts with `a/` or `b/`. -/
def stripAB (p : String) : String :=
  if strStarts p "a/" || strStarts p "b/" then strDrop p 2 else p

/-- Modelled from the spec: `PatchedFile.is_modified_file` of the external
`unidiff` library is not part of this repository.  The spec's status rule
(section 4.1: renamed when old path and new path differ after prefix
stripping and both exist, else modified) determines this flag as: the old and
new paths name the same file once the conventional `a/`-`b/` prefixes are
stripped. -/
def is_modified_file (f : DecodedFile) : Bool :=
  stripAB f.source_file = stripAB f.target_file

/-- Modelled from the spec: `Hunk.added` of the external `unidiff` library is
not part of this repository.  Per spec section 4.1 an addition row
contributes 1 to `additions`. -/
def hunkAdded (h : RawHunk) : Nat := h.lines.countP fun p => p.1 = '+'

/-- Modelled from the spec: `Hunk.removed` of the external `unidiff` library
is not part of this repository.  Per spec section 4.1 a deletion row
contributes 1 to `deletions`. -/
def hunkRemoved (h : RawHunk) : Nat := h.lines.countP fun p => p.1 = '-'

/-- Embeds `_parse_file` (lines 47-100): the status chain, the summed
addition/deletion counts, the `target_file or source_file` fallback, the
prefix stripping, and the per-hunk parsing.  `old_path` is always assigned
the stripped source path. -/
def parse_file (f : DecodedFile) : FileData :=
  let status :=
    if is_added_file f then "added"
    else if is_removed_file f then "deleted"
    else if is_modified_file f then "modified"
    else if f.source_file ≠ f.target_file then "renamed"
    else "modified"
  let total_additions := (f.hunks.map hunkAdded).sum
  let total_deletions := (f.hunks.map hunkRemoved).sum
  let target_path :=
    if f.target_file = "" then f.source_file else f.target_file
  { path := stripAB target_path
    old_path := some (stripAB f.source_file)
    status := status
    additions := total_additions
    deletions := total_deletions
    changes := total_additions + total_deletions
    hunks := f.hunks.map parse_hunk }

/-- A rendered file as built by `parse_git_diff_for_rendering`. -/
structure RenderedFile where
  path : String
  old_path : Option String
  status : String
  additions : Nat
  deletions : Nat
  changes : Nat
  hunks : List RenderedHunk
deriving DecidableEq

/-- Embeds the per-file body of `parse_git_diff_for_rendering` (lines
326-343): align the hunks into rows, regroup the rows into rendered hunks,
and copy the file metadata. -/
def renderFile (fd : FileData) : RenderedFile :=
  { path := fd.path
    old_path := fd.old_path
    status := fd.status
    additions := fd.additions
    deletions := fd.deletions
    changes := fd.changes
    hunks := group_lines_into_hunks (create_side_by_side_lines fd.hunks)
      fd.hunks }

/-- The parse error value of the spec's `Result` contract
(`DiffParseError` in the source). -/
structure ParseError where
  reason : String
deriving DecidableEq

/-- Error-propagating map over a list, the traversal shape of both the decode
stage and the `for patched_file in patch_set` loop: the first failure aborts
the whole computation and no partial list is produced. -/
def mapME (f : α → Except ParseError β) : List α → Except ParseError (List β)
  | [] => .ok []
  | a :: l =>
    match f a with
    | .error e => .error e
    | .ok b =>
      match mapME f l with
      | .error e => .error e
      | .ok bs => .ok (b :: bs)

/-- Modelled from the spec: the hunk-body line decoding of the external
`unidiff` library is not part of this repository.  Per spec section 4.2 the
leading marker character must be one of space, `-`, `+`; any other leading
character is a decode error for the hunk.  On success the marker is split
from the rest of the line. -/
def splitMarker (s : String) : Except ParseError (Char × String) :=
  match s.data with
  | [] => .error ⟨"hunk line without marker"⟩
  | c :: rest =>
    if c = ' ' ∨ c = '-' ∨ c = '+' then .ok (c, String.mk rest)
    else .error ⟨"unrecognized marker character"⟩

/-- A raw hunk block as cut out of the diff text: the four header fields still
as text (so that non-numeric fields are representable), the section header,
and the raw body lines. -/
structure RawHunkBlock where
  old_start_str : String
  old_count_str : String
  new_start_str : String
  new_count_str : String
  section_header : String
  body : List String
deriving DecidableEq

/-- Accumulating digit parser behind `strToNat?`. -/
def digitsToNat : Nat → List Char → Option Nat
  | acc, [] => some acc
  | acc, c :: t =>
    if '0' ≤ c ∧ c ≤ '9' then
      digitsToNat (acc * 10 + (c.toNat - 48)) t
    else none

/-- Decimal string to number, embedding the numeric parsing of hunk header
fields (`None` on the empty string or any non-digit character); kept on
character lists so that concrete inputs evaluate by kernel reduction. -/
def strToNat? (s : String) : Option Nat :=
  match s.data with
  | [] => none
  | l => digitsToNat 0 l

/-- Modelled from the spec: the hunk decoding of the external `unidiff`
library is not part of this repository.  Per spec section 7 a hunk header
with non-numeric start/count fields is a `MalformedHunkError`, and per
section 4.2 every body line must carry a recognized marker. -/
def decodeHunk (b : RawHunkBlock) : Except ParseError RawHunk :=
  match strToNat? b.old_start_str, strToNat? b.old_count_str,
      strToNat? b.new_start_str, strToNat? b.new_count_str with
  | some os, some oc, some ns, some nc =>
    match mapME splitMarker b.body with
    | .error e => .error e
    | .ok lines => .ok ⟨os, oc, ns, nc, b.section_header, lines⟩
  | _, _, _, _ => .error ⟨"malformed hunk header"⟩

/-- A raw file section as cut out of the diff text: declared old and new
paths and the raw hunk blocks. -/
structure RawSection where
  source_file : String
  target_file : String
  hunks : List RawHunkBlock
deriving DecidableEq

/-- Modelled from the spec: the file-section decoding of the external
`unidiff` library is not part of this repository.  Per spec section 4.1 a
failure inside a file's hunk body propagates as a `ParseError` identifying
the offending file path. -/
def decodeSection (s : RawSection) : Except ParseError DecodedFile :=
  match mapME decodeHunk s.hunks with
  | .error e => .error ⟨s.target_file ++ ": " ++ e.reason⟩
  | .ok hs => .ok ⟨s.source_file, s.target_file, hs⟩

/-- Embeds `parse_git_diff` (lines 28-44) from the decoded-section boundary
on: decode every file section (the `PatchSet` construction, modelled from the
spec), then convert each decoded file with `_parse_file`; any exception is
re-raised as a `DiffParseError` and no partial file list escapes. -/
def parse_git_diff (sections : List RawSection) :
    Except ParseError (List FileData) :=
  match mapME decodeSection sections with
  | .error e => .error ⟨"Diff parsing failed: " ++ e.reason⟩
  | .ok fs => .ok (fs.map parse_file)

/-- Embeds `parse_git_diff_for_rendering` (lines 320-349) from the
decoded-section boundary on: run `parse_git_diff`, then regroup every file
for rendering; errors propagate unchanged shape-wise. -/
def parse_git_diff_for_rendering (sections : List RawSection) :
    Except ParseError (List RenderedFile) :=
  match parse_git_diff sections with
  | .error e => .error ⟨"Diff parsing for rendering failed: " ++ e.reason⟩
  | .ok fs => .ok (fs.map renderFile)

/-- Dropping a prefix by predicate does not lengthen a list; used for the
termination of the run-collection recursions. -/
def lenDropWhileLe (p : α → Bool) (l : List α) :
    (List.dropWhile p l).length ≤ l.length :=
  List.Sublist.length_le (List.dropWhile_sublist p)

/-- Modelled from the spec: the splitting of diff text into file sections by
the external `unidiff` library is not part of this repository.  Per spec
section 4.1 each file section begins with a file-pair header line; the
declared old and new paths are the header remainders. -/
def splitSections : List String → List (String × String × List String)
  | [] => []
  | [_] => []
  | a :: b :: rest2 =>
    if strStarts a "--- " && strStarts b "+++ " then
      (strDrop a 4, strDrop b 4,
          rest2.takeWhile fun l => !strStarts l "--- ") ::
        splitSections (rest2.dropWhile fun l => !strStarts l "--- ")
    else splitSections (b :: rest2)
  termination_by ls => ls.length
  decreasing_by
  all_goals simp only [List.length_cons]
  all_goals first
  | omega
  | exact Nat.lt_of_le_of_lt (lenDropWhileLe _ _) (by omega)

/-- Modelled from the spec: the splitting of a file section into hunk blocks
by the external `unidiff` library is not part of this repository.  The input
starts at a hunk-header (`@@`) line; each block is that line together with
the body lines up to the next `@@` line. -/
def splitHunkBlocks : List String → List (String × List String)
  | [] => []
  | l :: rest =>
    (l, rest.takeWhile fun s => !strStarts s "@@") ::
      splitHunkBlocks (rest.dropWhile fun s => !strStarts s "@@")
  termination_by ls => ls.length
  decreasing_by
  simp only [List.length_cons]
  exact Nat.lt_of_le_of_lt (lenDropWhileLe _ _) (by omega)

/-- Split a character list on every occurrence of a separator character;
the embedding of `str.split(sep)` used on single-character separators. -/
def splitChar (sep : Char) : List Char → List (List Char)
  | [] => [[]]
  | c :: t =>
    if decide (c = sep) then [] :: splitChar sep t
    else
      match splitChar sep t with
      | h :: r => (c :: h) :: r
      | [] => [[c]]

/-- Split a character list at the first occurrence of a separator sequence,
returning the parts before and after it, or `none` when absent. -/
def splitFirstSeq (sep : List Char) : List Char → Option (List Char × List Char)
  | [] => if sep = [] then some ([], []) else none
  | c :: t =>
    if charsPrefix sep (c :: t) then some ([], (c :: t).drop sep.length)
    else
      match splitFirstSeq sep t with
      | some p => some (c :: p.1, p.2)
      | none => none

/-- Modelled from the spec: a start/count range such as `1,2` of an `@@`
header; a missing count defaults to 1.  Degenerate shapes are passed through
so that `decodeHunk` rejects them as non-numeric. -/
def parseRange (r : List Char) : String × String :=
  match splitChar ',' r with
  | [x] => (String.mk x, "1")
  | [x, y] => (String.mk x, String.mk y)
  | _ => (String.mk r, String.mk r)

/-- Modelled from the spec: parsing of one `@@ -a,b +c,d @@ header` line of
the external `unidiff` library is not part of this repository.  The four
range fields are kept as text; the trailing context text becomes the section
header. -/
def parseHunkHeaderLine (line : String) :
    Option (String × String × String × String × String) :=
  if strStarts line "@@ " then
    let s := line.data.drop 3
    match splitFirstSeq (' ' :: '@' :: '@' :: []) s with
    | some (ranges, tail) =>
      let sh := String.mk (match tail with
        | ' ' :: t => t
        | t => t)
      match splitChar ' ' ranges with
      | [o, n] =>
        match o, n with
        | '-' :: od, '+' :: nd =>
          let oldPair := parseRange od
          let newPair := parseRange nd
          some (oldPair.1, oldPair.2, newPair.1, newPair.2, sh)
        | _, _ => none
      | _ => none
    | none => none
  else none

/-- Modelled from the spec: turn one raw file section into a `RawSection`,
failing when the section lacks any hunk header or a hunk header line cannot
be recognized. -/
def sectionToRaw : String × String × List String → Except ParseError RawSection
  | (oldPath, newPath, body) =>
    let body2 := (body.filter fun l => l ≠ "").dropWhile fun l =>
      !strStarts l "@@"
    match splitHunkBlocks body2 with
    | [] => .error ⟨"malformed diff: no hunk header in section " ++ newPath⟩
    | blocks =>
      match mapME (fun hb =>
          match parseHunkHeaderLine hb.1 with
          | some (a, b, c, d, sh) =>
            .ok (⟨a, b, c, d, sh, hb.2⟩ : RawHunkBlock)
          | none => .error ⟨"malformed hunk header in " ++ newPath⟩)
          blocks with
      | .error e => .error e
      | .ok bs => .ok ⟨oldPath, newPath, bs⟩

/-- Modelled from the spec: tokenize raw diff text into file sections;
garbage input that yields no section at all is a malformed-diff error. -/
def tokenizeSections (text : String) : Except ParseError (List RawSection) :=
  let secs := splitSections ((splitChar '\n' text.data).map String.mk)
  if secs = [] then .error ⟨"malformed diff"⟩
  else mapME sectionToRaw secs

/-- Embeds the entry guard of `parse_git_diff` (lines 29-30): empty or
whitespace-only input short circuits to the empty file list before any
decoding; otherwise the text is tokenized (modelled from the spec) and parsed
section by section. -/
def parse_git_diff_text (diff_text : String) :
    Except ParseError (List FileData) :=
  if stripWs diff_text = "" then .ok []
  else
    match tokenizeSections diff_text with
    | .error e => .error ⟨"Diff parsing failed: " ++ e.reason⟩
    | .ok secs => parse_git_diff secs

/-- The left line number a row contributes, if any: context and change rows
expose their left cell's `line_num`; hunk-header rows contribute none. -/
def rowLeftNum : Row → Option Nat
  | .context lc _ => lc.line_num
  | .change lc _ => lc.line_num
  | .hunkHeader _ _ _ => none

/-- The right line number a row contributes, if any. -/
def rowRightNum : Row → Option Nat
  | .context _ rc => rc.line_num
  | .change _ rc => rc.line_num
  | .hunkHeader _ _ _ => none

/-- Number of rows carrying a non-null left line number. -/
def countLeftRows (rows : List Row) : Nat :=
  rows.countP fun r => (rowLeftNum r).isSome

/-- Number of rows carrying a non-null right line number. -/
def countRightRows (rows : List Row) : Nat :=
  rows.countP fun r => (rowRightNum r).isSome

/-- Recognizes hunk-header rows. -/
def isHeaderRow : Row → Bool
  | .hunkHeader _ _ _ => true
  | _ => false

/-- Number of hunk-header rows in a row list. -/
def countHeaderRows (rows : List Row) : Nat := rows.countP isHeaderRow

/-- A recognized leading marker character per spec section 4.2. -/
def validMarker (c : Char) : Prop := c = ' ' ∨ c = '-' ∨ c = '+'

instance (c : Char) : Decidable (validMarker c) := by
  unfold validMarker; infer_instance

/-- A well-formed decoded hunk: every body line carries a recognized marker,
and the declared counts agree with the body (old side counts context and
deletion lines, new side counts context and addition lines) — exactly the
line-count invariant of a well-formed unified diff. -/
def wfHunk (h : RawHunk) : Prop :=
  (∀ p ∈ h.lines, validMarker p.1) ∧
  h.old_count =
    h.lines.countP (fun p => decide (p.1 = ' ') || decide (p.1 = '-')) ∧
  h.new_count =
    h.lines.countP (fun p => decide (p.1 = ' ') || decide (p.1 = '+'))

instance (h : RawHunk) : Decidable (wfHunk h) := by
  unfold wfHunk; infer_instance

/-- C10: `parse` applied to the empty string returns an empty file sequence,
not an error (the guard at lines 29-30 of the source short circuits before
any decoding happens). -/
theorem c10_empty_input : parse_git_diff_text "" = Except.ok [] := rfl

/-- The decoded file section of spec scenario 4: old path is the "no file"
sentinel, new path is `newfile.py` (with its `b/` prefix as supplied by the
diff tool), one pure-addition hunk. -/
def c6file : DecodedFile :=
  ⟨"/dev/null", "b/newfile.py", [⟨0, 0, 1, 1, "", [('+', "print(1)\n")]⟩]⟩

/-- C6 counterexample: on the scenario-4 input the file status is `added`,
but `old_path` is not null — `_parse_file` (line 87) unconditionally assigns
the stripped source path, here the sentinel string itself.  The claim that
`old_path` is null unless the file is renamed is therefore false. -/
theorem c6_counterexample :
    (parse_file c6file).status = "added" ∧
      (parse_file c6file).old_path ≠ none := by
  exact ⟨rfl, by decide⟩

/-- C6 (amended): `old_path` always carries the prefix-stripped declared old
path and is never null; in particular the scenario-4 input yields status
`added` with `old_path` equal to the "no file" sentinel rather than null. -/
theorem c6_old_path_always_set :
    (∀ f : DecodedFile,
      (parse_file f).old_path = some (stripAB f.source_file)) ∧
    (parse_file c6file).status = "added" ∧
    (parse_file c6file).old_path = some DEV_NULL :=
  ⟨fun _ => rfl, rfl, rfl⟩

/-- The file-status rule exactly as the spec words it (section 4.1): `added`
if the old path is the "no file" sentinel; `deleted` if the new path is;
`renamed` if old path and new path differ (prefix-stripped, both existing);
else `modified`. -/
def specFileStatus (f : DecodedFile) : String :=
  if f.source_file = DEV_NULL then "added"
  else if f.target_file = DEV_NULL then "deleted"
  else if stripAB f.source_file ≠ stripAB f.target_file then "renamed"
  else "modified"

/-- C5: the status computed by the `_parse_file` chain coincides with the
spec's status rule for every decoded file section. -/
theorem c5_status_rule (f : DecodedFile) :
    (parse_file f).status = specFileStatus f := by
  unfold parse_file specFileStatus is_added_file is_removed_file
    is_modified_file
  by_cases h1 : f.source_file = DEV_NULL
  · simp [h1]
  · by_cases h2 : f.target_file = DEV_NULL
    · simp [h1, h2]
    · by_cases h3 : stripAB f.source_file = stripAB f.target_file
      · simp [h1, h2, h3]
      · have h4 : f.source_file ≠ f.target_file := by
          intro he; exact h3 (by rw [he])
        simp [h1, h2, h3, h4]

deriving instance DecidableEq for Except

/-- A failing element makes the whole error-propagating traversal fail: the
first-error-aborts shape shared by the decode stage and the per-file loop. -/
theorem mapME_error_of_mem (f : α → Except ParseError β) (l : List α)
    (h : ∃ a ∈ l, ∃ e, f a = Except.error e) :
    ∃ e2, mapME f l = Except.error e2 := by
  induction l with
  | nil => simp at h
  | cons a t ih =>
    obtain ⟨x, hx, e, hfx⟩ := h
    cases hfa : f a with
    | error e2 => exact ⟨e2, by simp [mapME, hfa]⟩
    | ok b =>
      have hxt : x ∈ t := by
        rcases List.mem_cons.mp hx with h1 | h1
        · subst h1; rw [hfa] at hfx; exact absurd hfx (by simp)
        · exact h1
      obtain ⟨e3, ht⟩ := ih ⟨x, hxt, e, hfx⟩
      exact ⟨e3, by simp [mapME, hfa, ht]⟩

/-- C3: a hunk whose body contains a line with an unrecognized leading marker
character (not space, `-` or `+`) fails to decode with a parse error; the
line is neither silently classified nor dropped, since the failing decode
yields no line list at all. -/
theorem c3_bad_marker_fails (b : RawHunkBlock)
    (h : ∃ l ∈ b.body, ∃ c cs, l.data = c :: cs ∧ ¬validMarker c) :
    ∃ e, decodeHunk b = Except.error e := by
  obtain ⟨l, hl, c, cs, hdata, hbad⟩ := h
  have hsplit : splitMarker l = Except.error ⟨"unrecognized marker character"⟩ := by
    unfold splitMarker validMarker at *
    rw [hdata]
    simp [hbad]
  unfold decodeHunk
  cases strToNat? b.old_start_str with
  | none => exact ⟨⟨"malformed hunk header"⟩, rfl⟩
  | some os =>
    cases strToNat? b.old_count_str with
    | none => exact ⟨⟨"malformed hunk header"⟩, rfl⟩
    | some oc =>
      cases strToNat? b.new_start_str with
      | none => exact ⟨⟨"malformed hunk header"⟩, rfl⟩
      | some ns =>
        cases strToNat? b.new_count_str with
        | none => exact ⟨⟨"malformed hunk header"⟩, rfl⟩
        | some nc =>
          obtain ⟨e2, he2⟩ :=
            mapME_error_of_mem splitMarker b.body ⟨l, hl, _, hsplit⟩
          exact ⟨e2, by simp [he2]⟩

/-- Concrete input for the C3 witness: a hunk block whose second body line
starts with `@`. -/
def c3block : RawHunkBlock := ⟨"1", "2", "1", "2", "", [" ok", "@bad"]⟩

/-- C3 witness: the hypothesis and the conclusion of `c3_bad_marker_fails`
hold at the concrete block `c3block`. -/
theorem c3_witness :
    ("@bad" ∈ c3block.body ∧ String.data "@bad" = '@' :: ['b', 'a', 'd'] ∧
      ¬validMarker '@') ∧
    decodeHunk c3block = Except.error ⟨"unrecognized marker character"⟩ := by
  constructor
  · exact ⟨by decide, by decide, by decide⟩
  · obtain ⟨e, he⟩ := c3_bad_marker_fails c3block
      ⟨"@bad", by decide, '@', ['b', 'a', 'd'], by decide, by decide⟩
    have : e = ⟨"unrecognized marker character"⟩ := by
      have h2 : decodeHunk c3block =
          Except.error ⟨"unrecognized marker character"⟩ := by decide
      rw [h2] at he
      exact (Except.error.inj he).symm
    rw [← this]
    exact he

/-- C8: if any file section fails to decode, the whole parse call fails with
an error and returns no partial result: no file list is ever produced
alongside or instead of the error. -/
theorem c8_all_or_nothing (sections : List RawSection)
    (h : ∃ s ∈ sections, ∃ e, decodeSection s = Except.error e) :
    ∃ e2, parse_git_diff sections = Except.error e2 ∧
      ∀ fs, parse_git_diff sections ≠ Except.ok fs := by
  obtain ⟨e2, he2⟩ := mapME_error_of_mem decodeSection sections h
  refine ⟨⟨"Diff parsing failed: " ++ e2.reason⟩, ?_, ?_⟩
  · unfold parse_git_diff
    rw [he2]
  · intro fs hfs
    unfold parse_git_diff at hfs
    rw [he2] at hfs
    exact absurd hfs (by simp)

/-- Concrete first section for the C8 witness: parses cleanly. -/
def c8sec1 : RawSection := ⟨"a/ok.py", "b/ok.py", [⟨"1", "1", "1", "1", "", ["-x", "+y"]⟩]⟩

/-- Concrete second section for the C8 witness: its hunk header's old-start
field is not numeric. -/
def c8sec2 : RawSection :=
  ⟨"a/bad.py", "b/bad.py", [⟨"x1", "1", "1", "1", "", ["-z"]⟩]⟩

/-- C8 witness: with a well-formed first section and a second section whose
hunk header is malformed, the hypothesis and the conclusion of
`c8_all_or_nothing` hold; in particular the successfully decodable first
file is not returned. -/
theorem c8_witness :
    (c8sec2 ∈ [c8sec1, c8sec2] ∧
      decodeSection c8sec2 =
        Except.error ⟨"b/bad.py: malformed hunk header"⟩) ∧
    (∃ e2, parse_git_diff [c8sec1, c8sec2] = Except.error e2 ∧
      ∀ fs, parse_git_diff [c8sec1, c8sec2] ≠ Except.ok fs) := by
  constructor
  · exact ⟨by decide, by decide⟩
  · exact c8_all_or_nothing [c8sec1, c8sec2]
      ⟨c8sec2, by decide, ⟨"b/bad.py: malformed hunk header"⟩, by decide⟩

/-- The per-row padding law: a change row must not have both sides empty. -/
def changeRowPadOk : Row → Bool
  | .change lc rc =>
    !(decide (lc.kind = CellKind.empty) && decide (rc.kind = CellKind.empty))
  | _ => true

/-- Every row produced by the pairing loop satisfies the padding law: a row
always carries the deletion cell, the addition cell, or both. -/
theorem changeRows_all_padOk (ds as : List LineData) :
    (changeRows ds as).all changeRowPadOk = true := by
  induction ds generalizing as with
  | nil =>
    simp only [changeRows, List.all_eq_true, List.mem_map]
    rintro r ⟨a, _, rfl⟩
    simp [changeRowPadOk, addCell]
  | cons d ds ih =>
    cases as with
    | nil => simp [changeRows, changeRowPadOk, delCell, ih]
    | cons a as => simp [changeRows, changeRowPadOk, delCell, ih]

/-- Every row produced by the aligner while-loop satisfies the padding law. -/
theorem alignLines_all_padOk (ls : List LineData) :
    (alignLines ls).all changeRowPadOk = true := by
  induction ls using alignLines.induct with
  | case1 => simp [alignLines]
  | case2 l rest h ih =>
    simp only [alignLines, h]
    simp [changeRowPadOk, ih]
  | case3 l rest h ih =>
    simp only [alignLines, h]
    simp [List.all_append, changeRows_all_padOk, ih]
  | case4 l rest h ih =>
    simp only [alignLines, h]
    simp [changeRowPadOk, addCell, ih]

/-- The per-hunk row lists, concatenated in order: the flat structure of
`create_side_by_side_lines`. -/
def hunksRows : List HunkData → List Row
  | [] => []
  | h :: t => rowsOfHunk h ++ hunksRows t

/-- The accumulator of `create_side_by_side_lines` only ever appends, so the
result is the in-order concatenation of every hunk's rows. -/
theorem create_side_by_side_eq_hunksRows (hunks : List HunkData) :
    create_side_by_side_lines hunks = hunksRows hunks := by
  suffices h : ∀ (hs : List HunkData) (acc : List Row),
      hs.foldl (fun a hk => a ++ rowsOfHunk hk) acc = acc ++ hunksRows hs by
    simpa [create_side_by_side_lines] using h hunks []
  intro hs
  induction hs with
  | nil => simp [hunksRows]
  | cons hk t ih =>
    intro acc
    simp [List.foldl_cons, ih, hunksRows]

/-- C9: in the full output of the aligner, every change row has at most one
empty cell — never both sides empty. -/
theorem c9_padding_law (hunks : List HunkData) :
    (create_side_by_side_lines hunks).all changeRowPadOk = true := by
  rw [create_side_by_side_eq_hunksRows]
  induction hunks with
  | nil => simp [hunksRows]
  | cons hk t ih =>
    simp only [hunksRows, List.all_append, Bool.and_eq_true]
    refine ⟨?_, ih⟩
    unfold rowsOfHunk
    by_cases hh : hk.section_header = ""
    · simp [hh, alignLines_all_padOk]
    · simp [hh, List.all_append, changeRowPadOk, alignLines_all_padOk]

/-- No-trailing-newline check on a character list. -/
def noTrailNlList (l : List Char) : Bool :=
  match l.getLast? with
  | some c => !isNlChar c
  | none => true

/-- A string whose last character is neither a newline nor a carriage
return (vacuously true for the empty string). -/
def noTrailingNl (s : String) : Bool := noTrailNlList s.data

/-- Stripping trailing newlines leaves no trailing newline. -/
theorem rstripNl_noTrail (t : String) : noTrailingNl (rstripNl t) = true := by
  show noTrailNlList ((t.data.reverse.dropWhile isNlChar).reverse) = true
  unfold noTrailNlList
  rw [List.getLast?_reverse]
  have h := List.head?_dropWhile_not isNlChar t.data.reverse
  cases hh : (t.data.reverse.dropWhile isNlChar).head? with
  | none => simp
  | some c =>
    rw [hh] at h
    simp [h]

/-- The marker character a line kind stands for (spec section 4.2). -/
def markerChar : LineType → Char
  | .context => ' '
  | .deletion => '-'
  | .addition => '+'

/-- The classifier contract exactly as the claim words it: walk the lines in
order with two cursors seeded from the hunk header; a context line carries
both cursor values and advances both; a deletion carries the old cursor only
and advances it alone; an addition carries the new cursor only and advances
it alone; every content is emitted with trailing newlines and carriage
returns stripped. -/
def classifySpec (oldNum newNum : Nat) :
    List (LineType × String) → List LineData
  | [] => []
  | (m, t) :: rest =>
    match m with
    | .context =>
      ⟨.context, some oldNum, some newNum, rstripNl t⟩ ::
        classifySpec (oldNum + 1) (newNum + 1) rest
    | .deletion =>
      ⟨.deletion, some oldNum, none, rstripNl t⟩ ::
        classifySpec (oldNum + 1) newNum rest
    | .addition =>
      ⟨.addition, none, some newNum, rstripNl t⟩ ::
        classifySpec oldNum (newNum + 1) rest

/-- Every line emitted by the embedded classifier has its trailing newline
and carriage-return characters stripped. -/
theorem parseHunkLines_stripped (oldNum newNum : Nat)
    (ls : List (Char × String)) :
    (parseHunkLines oldNum newNum ls).all
      (fun l => noTrailingNl l.content) = true := by
  induction ls generalizing oldNum newNum with
  | nil => simp [parseHunkLines]
  | cons p rest ih =>
    obtain ⟨c, t⟩ := p
    by_cases h1 : c = ' '
    · simp [parseHunkLines, h1, rstripNl_noTrail, ih]
    · by_cases h2 : c = '-'
      · simp [parseHunkLines, h1, h2, rstripNl_noTrail, ih]
      · by_cases h3 : c = '+'
        · simp [parseHunkLines, h1, h2, h3, rstripNl_noTrail, ih]
        · simp [parseHunkLines, h1, h2, h3, rstripNl_noTrail, ih]

/-- The raw (marker, value) form of a classified hunk body: each line kind
rendered as its marker character. -/
def toRawLines : List (LineType × String) → List (Char × String)
  | [] => []
  | (m, t) :: rest => (markerChar m, t) :: toRawLines rest

/-- C7: on hunk bodies made of the three recognized line kinds the embedded
classifier `parseHunkLines` realizes the claim's cursor walk exactly
(`classifySpec`), and every emitted content is stripped of trailing newline
and carriage-return characters. -/
theorem c7_classifier_cursors (oldNum newNum : Nat)
    (ms : List (LineType × String)) :
    parseHunkLines oldNum newNum (toRawLines ms) =
      classifySpec oldNum newNum ms ∧
    ∀ ls : List (Char × String),
      (parseHunkLines oldNum newNum ls).all
        (fun l => noTrailingNl l.content) = true := by
  refine ⟨?_, parseHunkLines_stripped oldNum newNum⟩
  induction ms generalizing oldNum newNum with
  | nil => simp [parseHunkLines, classifySpec, toRawLines]
  | cons p rest ih =>
    obtain ⟨m, t⟩ := p
    cases m with
    | context => simp [parseHunkLines, classifySpec, toRawLines, markerChar, ih]
    | deletion => simp [parseHunkLines, classifySpec, toRawLines, markerChar, ih]
    | addition => simp [parseHunkLines, classifySpec, toRawLines, markerChar, ih]

/-- Every row produced by the pairing loop is a change row, hence not a
hunk-header row. -/
theorem changeRows_no_header (ds as : List LineData) :
    (changeRows ds as).all (fun r => !isHeaderRow r) = true := by
  induction ds generalizing as with
  | nil =>
    simp only [changeRows, List.all_eq_true, List.mem_map]
    rintro r ⟨a, _, rfl⟩
    simp [isHeaderRow]
  | cons d ds ih =>
    cases as with
    | nil =>
      simp only [changeRows, List.all_cons, ih, Bool.and_true]
      rfl
    | cons a as =>
      simp only [changeRows, List.all_cons, ih, Bool.and_true]
      rfl

/-- The aligner while-loop never emits a hunk-header row: headers are only
produced by the per-hunk loop around it. -/
theorem alignLines_no_header (ls : List LineData) :
    (alignLines ls).all (fun r => !isHeaderRow r) = true := by
  induction ls using alignLines.induct with
  | case1 => simp [alignLines]
  | case2 l rest h ih =>
    simp only [alignLines, h]
    simp only [List.all_cons, ih, Bool.and_true]
    rfl
  | case3 l rest h ih =>
    simp only [alignLines, h]
    simp only [List.all_append, changeRows_no_header, ih, Bool.and_self]
  | case4 l rest h ih =>
    simp only [alignLines, h]
    simp only [List.all_cons, ih, Bool.and_true]
    rfl

/-- The rows of a hunk list in which every hunk opens with its header row:
what `create_side_by_side_lines` produces when no section header is empty. -/
def specRowsWithHeaders : List HunkData → List Row
  | [] => []
  | h :: t =>
    Row.hunkHeader h.section_header h.old_start h.new_start ::
      (alignLines h.lines ++ specRowsWithHeaders t)

/-- When every hunk carries a non-empty section header, the aligner output
opens every hunk with its header row. -/
theorem create_side_by_side_with_headers (hunks : List HunkData)
    (hhdr : ∀ hk ∈ hunks, hk.section_header ≠ "") :
    create_side_by_side_lines hunks = specRowsWithHeaders hunks := by
  rw [create_side_by_side_eq_hunksRows]
  induction hunks with
  | nil => simp [hunksRows, specRowsWithHeaders]
  | cons hk t ih =>
    have h1 : hk.section_header ≠ "" := hhdr hk (List.mem_cons_self hk t)
    simp only [hunksRows, specRowsWithHeaders, rowsOfHunk, if_pos h1]
    rw [ih fun x hx => hhdr x (List.mem_cons_of_mem hk hx)]
    simp

/-- Number of header rows in `specRowsWithHeaders`: exactly one per hunk. -/
theorem specRowsWithHeaders_headerCount (hunks : List HunkData) :
    countHeaderRows (specRowsWithHeaders hunks) = hunks.length := by
  induction hunks with
  | nil => simp [specRowsWithHeaders, countHeaderRows]
  | cons hk t ih =>
    have hno := alignLines_no_header hk.lines
    simp only [specRowsWithHeaders, countHeaderRows, List.countP_cons,
      List.countP_append] at *
    have hz : (alignLines hk.lines).countP isHeaderRow = 0 := by
      rw [List.countP_eq_zero]
      intro r hr
      have := (List.all_eq_true.mp hno) r hr
      simpa using this
    simp [isHeaderRow, hz, ih]

/-- The hunk whose empty section header makes `create_side_by_side_lines`
skip the header row. -/
def c4hunk : HunkData :=
  parse_hunk ⟨1, 1, 1, 1, "", [('-', "old\n"), ('+', "new\n")]⟩

/-- C4 counterexample: for a hunk with an empty section header the aligner
output contains no hunk-header row at all (the claim demands exactly one
hunk-header row per hunk including hunks with an empty section header, which
would make this count 1). -/
theorem c4_counterexample :
    countHeaderRows (create_side_by_side_lines [c4hunk]) = 0 := by
  simp [create_side_by_side_lines, rowsOfHunk, c4hunk, parse_hunk,
    parseHunkLines, alignLines, isDelLine, isAddLine, changeRows,
    countHeaderRows, isHeaderRow, rstripNl, isNlChar]

/-- C4 (amended): exactly one hunk-header row is emitted per hunk whose
section header is non-empty — placed before that hunk's content rows and
carrying the hunk's own section header text and start metadata — and the
aligned content rows themselves never contain header rows; hunks with an
empty section header get no header row. -/
theorem c4_header_per_hunk (hunks : List HunkData)
    (hhdr : ∀ hk ∈ hunks, hk.section_header ≠ "") :
    countHeaderRows (create_side_by_side_lines hunks) = hunks.length ∧
    create_side_by_side_lines hunks = specRowsWithHeaders hunks ∧
    ∀ hk ∈ hunks, (alignLines hk.lines).all (fun r => !isHeaderRow r) = true := by
  have heq := create_side_by_side_with_headers hunks hhdr
  exact ⟨heq ▸ specRowsWithHeaders_headerCount hunks, heq,
    fun hk _ => alignLines_no_header hk.lines⟩

/-- Concrete input for the C4 witness: two hunks with non-empty section
headers. -/
def c4whunks : List HunkData :=
  [parse_hunk ⟨1, 1, 1, 1, "def f():", [('-', "a\n"), ('+', "b\n")]⟩,
   parse_hunk ⟨7, 1, 7, 2, "def g():", [(' ', "c\n"), ('+', "d\n")]⟩]

/-- C4 witness: the hypothesis and conclusion of `c4_header_per_hunk` hold at
the concrete two-hunk input `c4whunks`. -/
theorem c4_witness :
    (c4whunks.all fun hk => decide (hk.section_header ≠ "")) = true ∧
    countHeaderRows (create_side_by_side_lines c4whunks) = 2 ∧
    create_side_by_side_lines c4whunks = specRowsWithHeaders c4whunks := by
  have h := c4_header_per_hunk c4whunks (by decide)
  exact ⟨by decide, h.1, h.2.1⟩

/-- The claim's pairing at index `j`: inside `max(d, a)` the row pairs the
`j`-th deletion (or the empty cell once `j ≥ d`) with the `j`-th addition (or
the empty cell once `j ≥ a`); outside there is no row. -/
def pairAt (dels adds : List LineData) (j : Nat) : Option Row :=
  if j < max dels.length adds.length then
    some (Row.change
      (match dels[j]? with
        | some l => delCell l
        | none => emptyCell)
      (match adds[j]? with
        | some l => addCell l
        | none => emptyCell))
  else none

/-- The pairing loop emits exactly `max(d, a)` rows. -/
theorem changeRows_length (ds as : List LineData) :
    (changeRows ds as).length = max ds.length as.length := by
  induction ds generalizing as with
  | nil => simp [changeRows]
  | cons d ds ih =>
    cases as with
    | nil =>
      simp only [changeRows, List.length_cons, ih]
      simp
    | cons a as =>
      simp only [changeRows, List.length_cons, ih]
      omega

/-- Row `j` of the pairing loop is exactly the claim's pairing at `j`. -/
theorem changeRows_getElem (ds as : List LineData) (j : Nat) :
    (changeRows ds as)[j]? = pairAt ds as j := by
  induction ds generalizing as j with
  | nil =>
    simp only [changeRows, pairAt, List.getElem?_map, List.length_nil,
      Nat.max_eq_right (Nat.zero_le _)]
    cases h : as[j]? with
    | none =>
      have hj : as.length ≤ j := List.getElem?_eq_none_iff.mp h
      simp [Nat.not_lt.mpr hj]
    | some l =>
      have hj : j < as.length := by
        by_contra hc
        rw [List.getElem?_eq_none_iff.mpr (Nat.not_lt.mp hc)] at h
        exact absurd h (by simp)
      simp [hj]
  | cons d ds ih =>
    cases as with
    | nil =>
      cases j with
      | zero => simp [changeRows, pairAt]
      | succ j =>
        simp only [changeRows, List.getElem?_cons_succ, ih]
        simp only [pairAt, List.length_cons, List.length_nil,
          List.getElem?_cons_succ, List.getElem?_nil]
        have : j + 1 < max (ds.length + 1) 0 ↔ j < max ds.length 0 := by omega
        by_cases hj : j < max ds.length 0
        · simp [hj, this.mpr hj]
        · simp [hj, fun hh => hj (this.mp hh)]
    | cons a as =>
      cases j with
      | zero => simp [changeRows, pairAt]
      | succ j =>
        simp only [changeRows, List.getElem?_cons_succ, ih]
        simp only [pairAt, List.length_cons, List.getElem?_cons_succ]
        have : j + 1 < max (ds.length + 1) (as.length + 1) ↔
            j < max ds.length as.length := by omega
        by_cases hj : j < max ds.length as.length
        · simp [hj, this.mpr hj]
        · have hc1 : ¬(j < ds.length ∨ j < as.length) := by omega
          have hc2 : ¬(j + 1 < ds.length + 1 ∨ j + 1 < as.length + 1) := by
            omega
          simp only [lt_max_iff] at *
          simp [hc1, hc2]

/-- Taking while a predicate holds passes over a prefix on which it holds
everywhere. -/
theorem takeWhile_append_all {p : α → Bool} (l1 l2 : List α)
    (h : ∀ x ∈ l1, p x = true) :
    (l1 ++ l2).takeWhile p = l1 ++ l2.takeWhile p := by
  induction l1 with
  | nil => simp
  | cons a t ih =>
    have ha := h a (List.mem_cons_self a t)
    simp [List.takeWhile_cons, ha,
      ih fun x hx => h x (List.mem_cons_of_mem a hx)]

/-- Dropping while a predicate holds consumes a prefix on which it holds
everywhere. -/
theorem dropWhile_append_all {p : α → Bool} (l1 l2 : List α)
    (h : ∀ x ∈ l1, p x = true) :
    (l1 ++ l2).dropWhile p = l2.dropWhile p := by
  induction l1 with
  | nil => simp
  | cons a t ih =>
    have ha := h a (List.mem_cons_self a t)
    simp [List.dropWhile_cons, ha,
      ih fun x hx => h x (List.mem_cons_of_mem a hx)]

/-- Taking while a predicate that fails on the head yields nothing. -/
theorem takeWhile_nil_of_head {p : α → Bool} (l : List α)
    (h : ∀ x, l.head? = some x → p x = false) :
    l.takeWhile p = [] := by
  cases l with
  | nil => rfl
  | cons a t => simp [List.takeWhile_cons, h a rfl]

/-- Dropping while a predicate that fails on the head drops nothing. -/
theorem dropWhile_self_of_head {p : α → Bool} (l : List α)
    (h : ∀ x, l.head? = some x → p x = false) :
    l.dropWhile p = l := by
  cases l with
  | nil => rfl
  | cons a t => simp [List.dropWhile_cons, h a rfl]

/-- C1: reaching a deletion, the aligner consumes the maximal deletion run
(length `d`) and the maximal addition run that follows (length `a`), emits
exactly `max(d, a)` change rows whose row `j` pairs the `j`-th deletion (or
an empty cell once `j ≥ d`) with the `j`-th addition (or an empty cell once
`j ≥ a`), and resumes after all `d + a` consumed lines. -/
theorem c1_deletion_run_pairing (dels adds rest : List LineData)
    (hd : ∀ l ∈ dels, l.type = LineType.deletion)
    (hne : dels ≠ [])
    (ha : ∀ l ∈ adds, l.type = LineType.addition)
    (hr1 : ∀ l, rest.head? = some l → l.type ≠ LineType.addition)
    (hr2 : adds = [] → ∀ l, rest.head? = some l →
      l.type ≠ LineType.deletion) :
    alignLines (dels ++ adds ++ rest) =
      changeRows dels adds ++ alignLines rest ∧
    (changeRows dels adds).length = max dels.length adds.length ∧
    ∀ j, (changeRows dels adds)[j]? = pairAt dels adds j := by
  refine ⟨?_, changeRows_length dels adds, changeRows_getElem dels adds⟩
  obtain ⟨d0, ds, rfl⟩ := List.exists_cons_of_ne_nil hne
  have hd0 : d0.type = LineType.deletion := hd d0 (List.mem_cons_self d0 ds)
  have hds : ∀ x ∈ ds, isDelLine x = true := fun x hx => by
    simp [isDelLine, hd x (List.mem_cons_of_mem d0 hx)]
  have hadds : ∀ x ∈ adds, isAddLine x = true := fun x hx => by
    simp [isAddLine, ha x hx]
  have hAR_del : ∀ x, (adds ++ rest).head? = some x → isDelLine x = false := by
    intro x hx
    cases adds with
    | nil =>
      simp only [List.nil_append] at hx
      simp [isDelLine, hr2 rfl x hx]
    | cons a as =>
      simp only [List.cons_append, List.head?_cons, Option.some.injEq] at hx
      subst hx
      simp [isDelLine, ha a (List.mem_cons_self a as)]
  have hR_add : ∀ x, rest.head? = some x → isAddLine x = false := by
    intro x hx
    simp [isAddLine, hr1 x hx]
  rw [List.append_assoc, List.cons_append]
  rw [alignLines.eq_def]
  simp only [hd0]
  rw [takeWhile_append_all ds (adds ++ rest) hds,
    takeWhile_nil_of_head (adds ++ rest) hAR_del,
    dropWhile_append_all ds (adds ++ rest) hds,
    dropWhile_self_of_head (adds ++ rest) hAR_del,
    takeWhile_append_all adds rest hadds,
    takeWhile_nil_of_head rest hR_add,
    dropWhile_append_all adds rest hadds,
    dropWhile_self_of_head rest hR_add]
  simp

/-- The three deletion lines and the single addition line of spec
scenario 2. -/
def c1d0 : LineData := ⟨.deletion, some 1, none, "del0"⟩

def c1d1 : LineData := ⟨.deletion, some 2, none, "del1"⟩

def c1d2 : LineData := ⟨.deletion, some 3, none, "del2"⟩

def c1a0 : LineData := ⟨.addition, none, some 1, "add0"⟩

/-- C1 witness (spec scenario 2): three consecutive deletions followed by one
addition align to exactly three change rows — delete0 with add0, delete1 with
an empty cell, delete2 with an empty cell. -/
theorem c1_witness :
    alignLines [c1d0, c1d1, c1d2, c1a0] =
      [Row.change (delCell c1d0) (addCell c1a0),
       Row.change (delCell c1d1) emptyCell,
       Row.change (delCell c1d2) emptyCell] := by
  have h := c1_deletion_run_pairing [c1d0, c1d1, c1d2] [c1a0] []
    (by decide) (by decide) (by decide)
    (fun l hl => absurd hl (by simp))
    (fun _ l hl => absurd hl (by simp))
  have h1 := h.1
  simp only [List.append_nil] at h1
  rw [show ([c1d0, c1d1, c1d2] ++ [c1a0] : List LineData) =
    [c1d0, c1d1, c1d2, c1a0] from rfl] at h1
  rw [h1]
  simp [changeRows, alignLines]

/-- A line contributing to the old side: context or deletion. -/
def isCtxDelLine (l : LineData) : Bool :=
  decide (l.type = LineType.context) || decide (l.type = LineType.deletion)

/-- A line contributing to the new side: context or addition. -/
def isCtxAddLine (l : LineData) : Bool :=
  decide (l.type = LineType.context) || decide (l.type = LineType.addition)

/-- Shape invariant of classifier output: a context line carries both
numbers, a deletion its old number, an addition its new number. -/
def goodLine (l : LineData) : Bool :=
  match l.type with
  | .context => l.old_line_num.isSome && l.new_line_num.isSome
  | .deletion => l.old_line_num.isSome
  | .addition => l.new_line_num.isSome

/-- Classifier output always satisfies the shape invariant (each branch of
`_parse_line` fills the numbers its kind demands). -/
theorem parseHunkLines_good (oldNum newNum : Nat)
    (ls : List (Char × String)) :
    (parseHunkLines oldNum newNum ls).all goodLine = true := by
  induction ls generalizing oldNum newNum with
  | nil => simp [parseHunkLines]
  | cons p rest ih =>
    obtain ⟨c, t⟩ := p
    by_cases h1 : c = ' '
    · simp [parseHunkLines, h1, goodLine, ih]
    · by_cases h2 : c = '-'
      · simp [parseHunkLines, h1, h2, goodLine, ih]
      · by_cases h3 : c = '+'
        · simp [parseHunkLines, h1, h2, h3, goodLine, ih]
        · simp [parseHunkLines, h1, h2, h3, goodLine, ih]

/-- On a body of recognized markers, the classifier emits exactly one
old-side line per space or `-` marker and one new-side line per space or `+`
marker. -/
theorem parseHunkLines_marker_counts (oldNum newNum : Nat)
    (ls : List (Char × String)) (hv : ∀ p ∈ ls, validMarker p.1) :
    (parseHunkLines oldNum newNum ls).countP isCtxDelLine =
      ls.countP (fun p => decide (p.1 = ' ') || decide (p.1 = '-')) ∧
    (parseHunkLines oldNum newNum ls).countP isCtxAddLine =
      ls.countP (fun p => decide (p.1 = ' ') || decide (p.1 = '+')) := by
  induction ls generalizing oldNum newNum with
  | nil => simp [parseHunkLines]
  | cons p rest ih =>
    obtain ⟨c, t⟩ := p
    have hv0 : validMarker c := hv (c, t) (List.mem_cons_self _ _)
    have hvr : ∀ p ∈ rest, validMarker p.1 := fun p hp =>
      hv p (List.mem_cons_of_mem _ hp)
    rcases hv0 with h1 | h1 | h1
    · subst h1
      have ihr := ih (oldNum + 1) (newNum + 1) hvr
      simp [parseHunkLines, List.countP_cons, isCtxDelLine, isCtxAddLine,
        ihr.1, ihr.2]
    · subst h1
      have ihr := ih (oldNum + 1) newNum hvr
      simp [parseHunkLines, List.countP_cons, isCtxDelLine, isCtxAddLine,
        ihr.1, ihr.2]
    · subst h1
      have ihr := ih oldNum (newNum + 1) hvr
      simp [parseHunkLines, List.countP_cons, isCtxDelLine, isCtxAddLine,
        ihr.1, ihr.2]

/-- Left number of a change row. -/
theorem rowLeftNum_change (x y : ChangeCell) :
    rowLeftNum (Row.change x y) = x.line_num := rfl

/-- Right number of a change row. -/
theorem rowRightNum_change (x y : ChangeCell) :
    rowRightNum (Row.change x y) = y.line_num := rfl

/-- Row counts of the pairing loop: when the deletions carry old numbers and
the additions carry new numbers, exactly `d` rows contribute a left number
and exactly `a` rows contribute a right number. -/
theorem changeRows_counts (ds as : List LineData)
    (hds : ∀ l ∈ ds, l.old_line_num.isSome = true)
    (has : ∀ l ∈ as, l.new_line_num.isSome = true) :
    countLeftRows (changeRows ds as) = ds.length ∧
    countRightRows (changeRows ds as) = as.length := by
  induction ds generalizing as with
  | nil =>
    constructor
    · unfold countLeftRows
      simp only [changeRows, List.countP_map, List.length_nil]
      rw [List.countP_eq_zero]
      intro a _
      simp [Function.comp, rowLeftNum_change, emptyCell]
    · unfold countRightRows
      simp only [changeRows, List.countP_map]
      have hall : ∀ a ∈ as,
          ((fun r => (rowRightNum r).isSome) ∘
            fun a => Row.change emptyCell (addCell a)) a = true := by
        intro a hmem
        simp [Function.comp, rowRightNum_change, addCell, has a hmem]
      rw [List.countP_eq_length.mpr hall]
  | cons d ds ih =>
    have hd0 : d.old_line_num.isSome = true := hds d (List.mem_cons_self _ _)
    have hdr : ∀ l ∈ ds, l.old_line_num.isSome = true := fun l hl =>
      hds l (List.mem_cons_of_mem _ hl)
    cases as with
    | nil =>
      have ihr := ih [] hdr (by simp)
      constructor
      · unfold countLeftRows at *
        simp only [changeRows, List.countP_cons, ihr.1, rowLeftNum_change,
          delCell, hd0, List.length_cons]
        simp
      · unfold countRightRows at *
        simp only [changeRows, List.countP_cons, ihr.2, rowRightNum_change,
          emptyCell, List.length_nil]
        simp
    | cons a as =>
      have ha0 : a.new_line_num.isSome = true := has a (List.mem_cons_self _ _)
      have har : ∀ l ∈ as, l.new_line_num.isSome = true := fun l hl =>
        has l (List.mem_cons_of_mem _ hl)
      have ihr := ih as hdr har
      constructor
      · unfold countLeftRows at *
        simp only [changeRows, List.countP_cons, ihr.1, rowLeftNum_change,
          delCell, hd0, List.length_cons]
        simp
      · unfold countRightRows at *
        simp only [changeRows, List.countP_cons, ihr.2, rowRightNum_change,
          addCell, ha0, List.length_cons]
        simp

/-- Left number of a context row. -/
theorem rowLeftNum_context (x y : PlainCell) :
    rowLeftNum (Row.context x y) = x.line_num := rfl

/-- Right number of a context row. -/
theorem rowRightNum_context (x y : PlainCell) :
    rowRightNum (Row.context x y) = y.line_num := rfl

/-- A well-shaped deletion line carries its old number. -/
theorem goodLine_del {x : LineData} (hg : goodLine x = true)
    (ht : x.type = LineType.deletion) : x.old_line_num.isSome = true := by
  simpa [goodLine, ht] using hg

/-- A well-shaped addition line carries its new number. -/
theorem goodLine_add {x : LineData} (hg : goodLine x = true)
    (ht : x.type = LineType.addition) : x.new_line_num.isSome = true := by
  simpa [goodLine, ht] using hg

/-- A well-shaped context line carries both numbers. -/
theorem goodLine_ctx {x : LineData} (hg : goodLine x = true)
    (ht : x.type = LineType.context) :
    x.old_line_num.isSome = true ∧ x.new_line_num.isSome = true := by
  simpa [goodLine, ht] using hg

/-- Counting over a list splits at the takeWhile/dropWhile boundary. -/
theorem countP_takeWhile_dropWhile (p q : α → Bool) (l : List α) :
    l.countP q = (l.takeWhile p).countP q + (l.dropWhile p).countP q := by
  conv_lhs => rw [← List.takeWhile_append_dropWhile p l]
  rw [List.countP_append]

/-- Side counts of the aligner: on well-shaped input, the rows carrying a
left number are exactly the context and deletion lines, and the rows carrying
a right number are exactly the context and addition lines. -/
theorem alignLines_counts : ∀ ls : List LineData,
    (∀ l ∈ ls, goodLine l = true) →
    countLeftRows (alignLines ls) = ls.countP isCtxDelLine ∧
    countRightRows (alignLines ls) = ls.countP isCtxAddLine := by
  intro ls
  induction ls using alignLines.induct with
  | case1 =>
    intro _
    simp [alignLines, countLeftRows, countRightRows]
  | case2 l rest h ih =>
    intro hgood
    have hl := hgood l (List.mem_cons_self _ _)
    have hgr : ∀ x ∈ rest, goodLine x = true := fun x hx =>
      hgood x (List.mem_cons_of_mem _ hx)
    have ihr := ih hgr
    obtain ⟨hl1, hl2⟩ := goodLine_ctx hl h
    have hc1 : isCtxDelLine l = true := by simp [isCtxDelLine, h]
    have hc2 : isCtxAddLine l = true := by simp [isCtxAddLine, h]
    unfold countLeftRows countRightRows at *
    constructor
    · simp only [alignLines, h, List.countP_cons, hc1, ihr.1,
        rowLeftNum_context, hl1]
      try simp
    · simp only [alignLines, h, List.countP_cons, hc2, ihr.2,
        rowRightNum_context, hl2]
      try simp
  | case4 l rest h ih =>
    intro hgood
    have hl := hgood l (List.mem_cons_self _ _)
    have hgr : ∀ x ∈ rest, goodLine x = true := fun x hx =>
      hgood x (List.mem_cons_of_mem _ hx)
    have ihr := ih hgr
    have hl2 := goodLine_add hl h
    have hc1 : isCtxDelLine l = false := by simp [isCtxDelLine, h]
    have hc2 : isCtxAddLine l = true := by simp [isCtxAddLine, h]
    unfold countLeftRows countRightRows at *
    constructor
    · simp only [alignLines, h, List.countP_cons, hc1, ihr.1,
        rowLeftNum_change, emptyCell]
      try simp
    · simp only [alignLines, h, List.countP_cons, hc2, ihr.2,
        rowRightNum_change, addCell, hl2]
      try simp
  | case3 l rest h ih =>
    intro hgood
    have hl := hgood l (List.mem_cons_self _ _)
    have hgr : ∀ x ∈ rest, goodLine x = true := fun x hx =>
      hgood x (List.mem_cons_of_mem _ hx)
    have hgrest2 : ∀ x ∈ (rest.dropWhile isDelLine).dropWhile isAddLine,
        goodLine x = true := fun x hx =>
      hgr x (List.dropWhile_subset _ (List.dropWhile_subset _ hx))
    have ihr := ih hgrest2
    -- run shapes
    have hdels_type : ∀ x ∈ l :: rest.takeWhile isDelLine,
        x.type = LineType.deletion := by
      intro x hx
      rcases List.mem_cons.mp hx with rfl | hx2
      · exact h
      · have := List.mem_takeWhile_imp hx2
        simpa [isDelLine] using this
    have hadds_type : ∀ x ∈ (rest.dropWhile isDelLine).takeWhile isAddLine,
        x.type = LineType.addition := by
      intro x hx
      have := List.mem_takeWhile_imp hx
      simpa [isAddLine] using this
    have hdels_some : ∀ x ∈ l :: rest.takeWhile isDelLine,
        x.old_line_num.isSome = true := by
      intro x hx
      rcases List.mem_cons.mp hx with rfl | hx2
      · exact goodLine_del hl h
      · exact goodLine_del
          (hgr x (List.takeWhile_subset _ hx2)) (hdels_type x hx)
    have hadds_some : ∀ x ∈ (rest.dropWhile isDelLine).takeWhile isAddLine,
        x.new_line_num.isSome = true := by
      intro x hx
      exact goodLine_add
        (hgr x (List.dropWhile_subset _ (List.takeWhile_subset _ hx)))
        (hadds_type x hx)
    have hcr := changeRows_counts (l :: rest.takeWhile isDelLine)
      ((rest.dropWhile isDelLine).takeWhile isAddLine) hdels_some hadds_some
    -- count facts about the runs
    have e1 : (rest.takeWhile isDelLine).countP isCtxDelLine =
        (rest.takeWhile isDelLine).length := by
      rw [List.countP_eq_length]
      intro x hx
      simp [isCtxDelLine,
        hdels_type x (List.mem_cons_of_mem _ hx)]
    have e2 : ((rest.dropWhile isDelLine).takeWhile isAddLine).countP
        isCtxDelLine = 0 := by
      rw [List.countP_eq_zero]
      intro x hx
      simp [isCtxDelLine, hadds_type x hx]
    have e3 : (rest.takeWhile isDelLine).countP isCtxAddLine = 0 := by
      rw [List.countP_eq_zero]
      intro x hx
      simp [isCtxAddLine, hdels_type x (List.mem_cons_of_mem _ hx)]
    have e4 : ((rest.dropWhile isDelLine).takeWhile isAddLine).countP
        isCtxAddLine =
        ((rest.dropWhile isDelLine).takeWhile isAddLine).length := by
      rw [List.countP_eq_length]
      intro x hx
      simp [isCtxAddLine, hadds_type x hx]
    have hc1 : isCtxDelLine l = true := by simp [isCtxDelLine, h]
    have hc2 : isCtxAddLine l = false := by simp [isCtxAddLine, h]
    -- decompose the tail into the two runs and the remainder
    have hsplit : rest.countP isCtxDelLine =
        (rest.takeWhile isDelLine).countP isCtxDelLine +
        (((rest.dropWhile isDelLine).takeWhile isAddLine).countP
          isCtxDelLine +
          ((rest.dropWhile isDelLine).dropWhile isAddLine).countP
            isCtxDelLine) := by
      rw [countP_takeWhile_dropWhile isDelLine isCtxDelLine rest,
        countP_takeWhile_dropWhile isAddLine isCtxDelLine
          (rest.dropWhile isDelLine)]
    have hsplit2 : rest.countP isCtxAddLine =
        (rest.takeWhile isDelLine).countP isCtxAddLine +
        (((rest.dropWhile isDelLine).takeWhile isAddLine).countP
          isCtxAddLine +
          ((rest.dropWhile isDelLine).dropWhile isAddLine).countP
            isCtxAddLine) := by
      rw [countP_takeWhile_dropWhile isDelLine isCtxAddLine rest,
        countP_takeWhile_dropWhile isAddLine isCtxAddLine
          (rest.dropWhile isDelLine)]
    unfold countLeftRows countRightRows at *
    constructor
    · simp only [alignLines, h, List.countP_append, List.countP_cons, hc1,
        hcr.1, ihr.1, List.length_cons]
      rw [hsplit, e1, e2]
      try simp only [List.length_cons]
      try simp
      try omega
    · simp only [alignLines, h, List.countP_append, List.countP_cons, hc2,
        hcr.2, ihr.2]
      rw [hsplit2, e3, e4]
      try simp
      try omega

/-- The rendered hunk that `_group_lines_into_hunks` builds for the `k`-th
header row: starts and section header from the header row (which carries the
hunk's own metadata), counts from `original_hunks[k]`, lines from the
aligner. -/
def mkRenderedHunk (orig : List HunkData) (k : Nat) (h : HunkData) :
    RenderedHunk :=
  ⟨h.old_start, hunkFieldAt orig k HunkData.old_count 0, h.new_start,
    hunkFieldAt orig k HunkData.new_count 0, h.section_header,
    alignLines h.lines⟩

/-- The rendered hunks for a hunk-list suffix starting at header index `k`. -/
def renderHunksFrom (orig : List HunkData) : Nat → List HunkData →
    List RenderedHunk
  | _, [] => []
  | k, h :: t => mkRenderedHunk orig k h :: renderHunksFrom orig (k + 1) t

/-- The final flush of `_group_lines_into_hunks`: emitted hunks plus the
still-open one. -/
def finalizeGroup (st : GroupState) : List RenderedHunk :=
  st.rendered ++ st.current.toList

/-- Folding non-header rows onto an open hunk only appends to its lines. -/
theorem foldGroup_content (orig : List HunkData) :
    ∀ (rs : List Row), (∀ r ∈ rs, isHeaderRow r = false) →
    ∀ (R : List RenderedHunk) (ch : RenderedHunk) (k : Nat),
    rs.foldl (groupStep orig) ⟨R, some ch, k⟩ =
      ⟨R, some { ch with lines := ch.lines ++ rs }, k⟩ := by
  intro rs
  induction rs with
  | nil =>
    intro _ R ch k
    simp
  | cons r rs ih =>
    intro hrs R ch k
    have hr : isHeaderRow r = false := hrs r (List.mem_cons_self _ _)
    have hstep : groupStep orig ⟨R, some ch, k⟩ r =
        ⟨R, some { ch with lines := ch.lines ++ [r] }, k⟩ := by
      cases r with
      | hunkHeader c os ns => simp [isHeaderRow] at hr
      | context lc rc => rfl
      | change lc rc => rfl
    rw [List.foldl_cons, hstep,
      ih (fun x hx => hrs x (List.mem_cons_of_mem _ hx))]
    simp

/-- Folding the rows of hunks that all open with a header row flushes the
open hunk and renders each hunk with its own metadata in header order. -/
theorem foldGroup_hunks (orig : List HunkData) :
    ∀ (t : List HunkData),
    ∀ (R : List RenderedHunk) (ch : RenderedHunk) (k : Nat),
    finalizeGroup ((specRowsWithHeaders t).foldl (groupStep orig)
        ⟨R, some ch, k⟩) =
      R ++ ch :: renderHunksFrom orig k t := by
  intro t
  induction t with
  | nil =>
    intro R ch k
    simp [specRowsWithHeaders, finalizeGroup, renderHunksFrom]
  | cons h t ih =>
    intro R ch k
    have hstep : groupStep orig ⟨R, some ch, k⟩
        (Row.hunkHeader h.section_header h.old_start h.new_start) =
        ⟨R ++ [ch], some ⟨h.old_start,
          hunkFieldAt orig k HunkData.old_count 0, h.new_start,
          hunkFieldAt orig k HunkData.new_count 0, h.section_header, []⟩,
          k + 1⟩ := rfl
    have hno : ∀ r ∈ alignLines h.lines, isHeaderRow r = false := by
      intro r hr
      have := (List.all_eq_true.mp (alignLines_no_header h.lines)) r hr
      simpa using this
    simp only [specRowsWithHeaders, List.foldl_cons, hstep,
      List.foldl_append]
    rw [foldGroup_content orig (alignLines h.lines) hno]
    simp only [List.nil_append]
    rw [ih (R ++ [ch])
      ⟨h.old_start, hunkFieldAt orig k HunkData.old_count 0, h.new_start,
        hunkFieldAt orig k HunkData.new_count 0, h.section_header,
        alignLines h.lines⟩ (k + 1)]
    simp [renderHunksFrom, mkRenderedHunk]

/-- On hunk lists whose section headers are all non-empty, the regrouping of
the aligner output renders each hunk in order with its own metadata. -/
theorem group_spec (hs : List HunkData)
    (hh : ∀ h ∈ hs, h.section_header ≠ "") :
    group_lines_into_hunks (specRowsWithHeaders hs) hs =
      renderHunksFrom hs 0 hs := by
  cases hs with
  | nil => rfl
  | cons h t =>
    unfold group_lines_into_hunks
    have hne : specRowsWithHeaders (h :: t) ≠ [] := by
      simp [specRowsWithHeaders]
    rw [if_neg hne]
    have hno : ∀ r ∈ alignLines h.lines, isHeaderRow r = false := by
      intro r hr
      have := (List.all_eq_true.mp (alignLines_no_header h.lines)) r hr
      simpa using this
    show finalizeGroup ((specRowsWithHeaders (h :: t)).foldl
        (groupStep (h :: t)) ⟨[], none, 0⟩) = renderHunksFrom (h :: t) 0 (h :: t)
    simp only [specRowsWithHeaders, List.foldl_cons, List.foldl_append]
    rw [show groupStep (h :: t) ⟨[], none, 0⟩
        (Row.hunkHeader h.section_header h.old_start h.new_start) =
        ⟨[], some ⟨h.old_start,
          hunkFieldAt (h :: t) 0 HunkData.old_count 0, h.new_start,
          hunkFieldAt (h :: t) 0 HunkData.new_count 0, h.section_header, []⟩,
          1⟩ from rfl]
    rw [foldGroup_content (h :: t) (alignLines h.lines) hno]
    simp only [List.nil_append]
    rw [foldGroup_hunks (h :: t) t []
      ⟨h.old_start, hunkFieldAt (h :: t) 0 HunkData.old_count 0, h.new_start,
        hunkFieldAt (h :: t) 0 HunkData.new_count 0, h.section_header,
        alignLines h.lines⟩ 1]
    simp [renderHunksFrom, mkRenderedHunk]

/-- Indexing the rendered hunks: entry `i` renders the `i`-th hunk with
metadata looked up at position `k + i`. -/
theorem renderHunksFrom_getElem (orig : List HunkData) :
    ∀ (l : List HunkData) (k i : Nat),
    (renderHunksFrom orig k l)[i]? =
      (l[i]?).map fun h => mkRenderedHunk orig (k + i) h := by
  intro l
  induction l with
  | nil =>
    intro k i
    simp [renderHunksFrom]
  | cons h t ih =>
    intro k i
    cases i with
    | zero => simp [renderHunksFrom]
    | succ i =>
      simp only [renderHunksFrom, List.getElem?_cons_succ, ih (k + 1) i]
      have he : k + 1 + i = k + (i + 1) := by omega
      rw [he]

/-- First hunk of the C2 counterexample: well-formed, empty section header. -/
def c2rawA : RawHunk := ⟨1, 1, 1, 1, "", [('-', "a\n"), ('+', "b\n")]⟩

/-- Second hunk of the C2 counterexample: well-formed, empty section
header. -/
def c2rawB : RawHunk := ⟨10, 1, 10, 1, "", [('-', "c\n"), ('+', "d\n")]⟩

/-- The parsed hunks of the C2 counterexample. -/
def c2hunks : List HunkData := [parse_hunk c2rawA, parse_hunk c2rawB]

/-- The single rendered hunk the pipeline actually produces for the two
counterexample hunks: both hunks' rows merged under the first hunk's
metadata. -/
def c2rendered : RenderedHunk :=
  ⟨1, 1, 1, 1, "",
    [Row.change ⟨some 1, "a", CellKind.deletion⟩
        ⟨some 1, "b", CellKind.addition⟩,
      Row.change ⟨some 10, "c", CellKind.deletion⟩
        ⟨some 10, "d", CellKind.addition⟩]⟩

/-- C2 counterexample: two well-formed hunks whose section headers are empty
produce one merged rendered hunk with `old_count = 1` but two rows carrying a
left line number (and likewise on the right), so the claimed invariant fails
on the rendered output. -/
theorem c2_counterexample :
    wfHunk c2rawA ∧ wfHunk c2rawB ∧
    group_lines_into_hunks (create_side_by_side_lines c2hunks) c2hunks =
      [c2rendered] ∧
    c2rendered.old_count = 1 ∧ countLeftRows c2rendered.lines = 2 ∧
    c2rendered.new_count = 1 ∧ countRightRows c2rendered.lines = 2 := by
  refine ⟨by decide, by decide, ?_, by decide, by decide, by decide, by decide⟩
  simp [c2hunks, c2rendered, c2rawA, c2rawB, parse_hunk, parseHunkLines,
    create_side_by_side_lines, rowsOfHunk, alignLines, isDelLine, isAddLine,
    changeRows, delCell, addCell, group_lines_into_hunks, groupStep,
    hunkFieldAt, rstripNl, isNlChar, List.foldl]

/-- C2 (amended): when every hunk of a well-formed input additionally carries
a non-empty section header, every rendered hunk satisfies the line-count
invariant: `old_count` equals the number of its rows with a non-null left
line number and `new_count` the number with a non-null right line number. -/
theorem c2_line_count_invariant (raws : List RawHunk)
    (hwf : ∀ h ∈ raws, wfHunk h)
    (hhdr : ∀ h ∈ raws, h.section_header ≠ "") :
    ∀ (i : Nat) (rh : RenderedHunk),
      (group_lines_into_hunks
        (create_side_by_side_lines (raws.map parse_hunk))
        (raws.map parse_hunk))[i]? = some rh →
      rh.old_count = countLeftRows rh.lines ∧
      rh.new_count = countRightRows rh.lines := by
  intro i rh hrh
  have hh2 : ∀ h ∈ raws.map parse_hunk, h.section_header ≠ "" := by
    intro h hmem
    obtain ⟨raw, hr, rfl⟩ := List.mem_map.mp hmem
    simpa [parse_hunk] using hhdr raw hr
  rw [create_side_by_side_with_headers (raws.map parse_hunk) hh2,
    group_spec (raws.map parse_hunk) hh2,
    renderHunksFrom_getElem (raws.map parse_hunk) (raws.map parse_hunk) 0 i]
    at hrh
  cases hgi : (raws.map parse_hunk)[i]? with
  | none =>
    rw [hgi] at hrh
    simp at hrh
  | some h =>
    rw [hgi] at hrh
    have hmg : (raws[i]?).map parse_hunk = some h := by
      rw [← List.getElem?_map]
      exact hgi
    cases hri : raws[i]? with
    | none =>
      rw [hri] at hmg
      simp at hmg
    | some raw =>
      rw [hri] at hmg
      simp only [Option.map_some', Option.some.injEq] at hmg hrh
      subst hmg
      subst hrh
      have hmem : raw ∈ raws := by
        have := List.getElem?_eq_some_iff.mp hri
        obtain ⟨hlt, hget⟩ := this
        exact hget ▸ List.getElem_mem hlt
      have hw := hwf raw hmem
      have hgood : ∀ l ∈ (parse_hunk raw).lines, goodLine l = true := by
        intro l hl
        exact List.all_eq_true.mp
          (parseHunkLines_good raw.old_start raw.new_start raw.lines) l
          (by simpa [parse_hunk] using hl)
      have hac := alignLines_counts (parse_hunk raw).lines hgood
      have hmc := parseHunkLines_marker_counts raw.old_start raw.new_start
        raw.lines hw.1
      constructor
      · show hunkFieldAt (raws.map parse_hunk) (0 + i) HunkData.old_count 0 =
          countLeftRows (alignLines (parse_hunk raw).lines)
        rw [Nat.zero_add]
        unfold hunkFieldAt
        rw [hgi, hac.1]
        simp only [parse_hunk]
        rw [hmc.1]
        exact hw.2.1
      · show hunkFieldAt (raws.map parse_hunk) (0 + i) HunkData.new_count 0 =
          countRightRows (alignLines (parse_hunk raw).lines)
        rw [Nat.zero_add]
        unfold hunkFieldAt
        rw [hgi, hac.2]
        simp only [parse_hunk]
        rw [hmc.2]
        exact hw.2.2

/-- Concrete well-formed hunk with a non-empty section header for the C2
witness. -/
def c2wraw : RawHunk := ⟨3, 1, 5, 2, "sec", [(' ', "x\n"), ('+', "y\n")]⟩

/-- The rendered hunk the pipeline produces for `c2wraw`. -/
def c2wrendered : RenderedHunk :=
  ⟨3, 1, 5, 2, "sec",
    [Row.context ⟨some 3, "x"⟩ ⟨some 5, "x"⟩,
      Row.change ⟨none, "", CellKind.empty⟩
        ⟨some 6, "y", CellKind.addition⟩]⟩

/-- C2 witness: the hypotheses and conclusion of `c2_line_count_invariant`
hold at the concrete one-hunk input `c2wraw`: the rendered hunk has
`old_count = 1` with one left row and `new_count = 2` with two right rows. -/
theorem c2_witness :
    wfHunk c2wraw ∧ c2wraw.section_header ≠ "" ∧
    (group_lines_into_hunks
      (create_side_by_side_lines ([c2wraw].map parse_hunk))
      ([c2wraw].map parse_hunk))[0]? = some c2wrendered ∧
    (c2wrendered.old_count = countLeftRows c2wrendered.lines ∧
      c2wrendered.new_count = countRightRows c2wrendered.lines) := by
  have heval : (group_lines_into_hunks
      (create_side_by_side_lines ([c2wraw].map parse_hunk))
      ([c2wraw].map parse_hunk))[0]? = some c2wrendered := by
    simp [c2wraw, c2wrendered, parse_hunk, parseHunkLines,
      create_side_by_side_lines, rowsOfHunk, alignLines, isDelLine,
      isAddLine, changeRows, delCell, addCell, emptyCell,
      group_lines_into_hunks, groupStep, hunkFieldAt, rstripNl, isNlChar]
  refine ⟨by decide, by decide, heval, ?_⟩
  exact c2_line_count_invariant [c2wraw]
    (by intro h hm; simp at hm; subst hm; decide)
    (by intro h hm; simp at hm; subst hm; decide)
    0 c2wrendered heval
